import Mathlib

/-!
Verification of the virtual-scrolling engine of the agent-session-viewer
frontend (tauri-app/src/app.js).  The JavaScript state and functions are
shallowly embedded: pixel quantities are integers, the height cache is an
association list keyed by message id, DOM measurement is an injected
function from message id to measured pixel height, and the minimap click
arithmetic is carried out over exact rationals.
-/

namespace SessionViewer

/-- A message of the open session; only the fields the scrolling engine
reads are kept. -/
structure Msg where
  msg_id : String
  role : String
  content : String
deriving DecidableEq, Repr, Inhabited

/-- Constant `ESTIMATED_HEIGHT` from app.js. -/
def ESTIMATED_HEIGHT : Int := 80

/-- Constant `BUFFER_PX` from app.js. -/
def BUFFER_PX : Int := 400

/-- Constant `GAP` from app.js. -/
def GAP : Int := 16

/-- The `messageHeights` map: message id to last measured pixel height. -/
abbrev HeightCache := List (String × Int)

/-- Lookup `messageHeights.get(id)`; the most recently written entry wins. -/
def HeightCache.get (c : HeightCache) (id : String) : Option Int :=
  (c.find? (fun p => p.1 == id)).map (fun p => p.2)

/-- Update `messageHeights.set(id, h)`: one entry per key, new value replacing
any old one. -/
def HeightCache.set (c : HeightCache) (id : String) (h : Int) : HeightCache :=
  (id, h) :: c.filter (fun p => p.1 != id)

/-- Expression `messageHeights.get(id) || ESTIMATED_HEIGHT`: JavaScript `||` falls
back to the estimate both when the id is absent and when the stored
value is `0` (falsy). -/
def effHeight (c : HeightCache) (id : String) : Int :=
  match c.get id with
  | some h => if h = 0 then ESTIMATED_HEIGHT else h
  | none => ESTIMATED_HEIGHT

/-- The loop of `calculateOffsets`: starting from the running offset it
returns the list of pushed offsets together with the final running
offset. -/
def calcOffsetsLoop (c : HeightCache) : List Msg → Int → List Int × Int
  | [], offset => ([], offset)
  | m :: rest, offset =>
    let height := effHeight c m.msg_id
    let r := calcOffsetsLoop c rest (offset + height + GAP)
    (offset :: r.1, r.2)

/-- Function `calculateOffsets` from app.js: recomputes `messageOffsets` and
`totalHeight` from the message sequence and the height cache. -/
def calculateOffsets (msgs : List Msg) (c : HeightCache) : List Int × Int :=
  if msgs.isEmpty then ([], 0)
  else
    let r := calcOffsetsLoop c msgs 0
    (r.1, max 0 (r.2 - GAP))

/-- The recomputed `messageOffsets` table. -/
def messageOffsets (msgs : List Msg) (c : HeightCache) : List Int :=
  (calculateOffsets msgs c).1

/-- The recomputed `totalHeight`. -/
def totalHeight (msgs : List Msg) (c : HeightCache) : Int :=
  (calculateOffsets msgs c).2

/-- Entry `i` of the recomputed offset table (`messageOffsets[i]`). -/
def offAt (msgs : List Msg) (c : HeightCache) (i : Nat) : Int :=
  (messageOffsets msgs c).getD i 0

/-- Expression `messageHeights.get(allMessages[i].msg_id) || ESTIMATED_HEIGHT`. -/
def heightAt (msgs : List Msg) (c : HeightCache) (i : Nat) : Int :=
  effHeight c (msgs.getD i default).msg_id

/-- Every cached height is strictly positive: the invariant all writers
of `messageHeights` maintain. -/
def PosCache (c : HeightCache) : Prop := ∀ p ∈ c, 0 < p.2

lemma effHeight_pos {c : HeightCache} (hc : PosCache c) (id : String) :
    0 < effHeight c id := by
  unfold effHeight HeightCache.get
  cases hfind : c.find? (fun p => p.1 == id) with
  | none => simp [ESTIMATED_HEIGHT]
  | some p =>
    have hmem : p ∈ c := List.mem_of_find?_eq_some hfind
    have := hc p hmem
    simp only [Option.map_some']
    split
    · simp [ESTIMATED_HEIGHT]
    · exact this

lemma heightAt_pos {msgs : List Msg} {c : HeightCache} (hc : PosCache c)
    (i : Nat) : 0 < heightAt msgs c i :=
  effHeight_pos hc _

lemma calcOffsetsLoop_length (c : HeightCache) :
    ∀ (msgs : List Msg) (off : Int),
      (calcOffsetsLoop c msgs off).1.length = msgs.length := by
  intro msgs
  induction msgs with
  | nil => intro off; simp [calcOffsetsLoop]
  | cons m rest ih => intro off; simp [calcOffsetsLoop, ih]

lemma calcOffsetsLoop_getD_zero (c : HeightCache) (m : Msg)
    (rest : List Msg) (off : Int) :
    (calcOffsetsLoop c (m :: rest) off).1.getD 0 0 = off := by
  simp [calcOffsetsLoop]

lemma calcOffsetsLoop_getD_succ (c : HeightCache) :
    ∀ (msgs : List Msg) (off : Int) (i : Nat), i + 1 < msgs.length →
      (calcOffsetsLoop c msgs off).1.getD (i + 1) 0 =
        (calcOffsetsLoop c msgs off).1.getD i 0 +
          effHeight c ((msgs.getD i default).msg_id) + GAP := by
  intro msgs
  induction msgs with
  | nil => intro off i h; simp at h
  | cons m rest ih =>
    intro off i h
    cases i with
    | zero =>
      cases rest with
      | nil => simp at h
      | cons m2 rest2 =>
        simp [calcOffsetsLoop, List.getD]
    | succ j =>
      have hj : j + 1 < rest.length := by
        simpa [Nat.succ_lt_succ_iff] using h
      simp only [calcOffsetsLoop, List.getD_cons_succ, List.getD]
      exact ih _ j hj

lemma calcOffsetsLoop_snd (c : HeightCache) :
    ∀ (msgs : List Msg) (off : Int), msgs ≠ [] →
      (calcOffsetsLoop c msgs off).2 =
        (calcOffsetsLoop c msgs off).1.getD (msgs.length - 1) 0 +
          effHeight c ((msgs.getD (msgs.length - 1) default).msg_id) + GAP := by
  intro msgs
  induction msgs with
  | nil => intro off h; exact absurd rfl h
  | cons m rest ih =>
    intro off _
    cases rest with
    | nil => simp [calcOffsetsLoop]
    | cons m2 rest2 =>
      have hne : (m2 :: rest2 : List Msg) ≠ [] := by simp
      have hlen : (m :: m2 :: rest2 : List Msg).length - 1 =
          ((m2 :: rest2 : List Msg).length - 1) + 1 := by
        simp [List.length_cons]
      simp only [calcOffsetsLoop, hlen, List.getD_cons_succ, List.getD]
      exact ih _ hne

lemma messageOffsets_length (msgs : List Msg) (c : HeightCache) :
    (messageOffsets msgs c).length = msgs.length := by
  unfold messageOffsets calculateOffsets
  cases msgs with
  | nil => simp
  | cons m rest => simp [calcOffsetsLoop_length]

lemma offAt_zero {msgs : List Msg} (c : HeightCache) (hne : msgs ≠ []) :
    offAt msgs c 0 = 0 := by
  unfold offAt messageOffsets calculateOffsets
  cases msgs with
  | nil => exact absurd rfl hne
  | cons m rest =>
    simp only [List.isEmpty_cons, Bool.false_eq_true, if_false]
    exact calcOffsetsLoop_getD_zero c m rest 0

lemma offAt_succ {msgs : List Msg} (c : HeightCache) {i : Nat}
    (h : i + 1 < msgs.length) :
    offAt msgs c (i + 1) = offAt msgs c i + heightAt msgs c i + GAP := by
  unfold offAt messageOffsets calculateOffsets heightAt
  cases msgs with
  | nil => simp at h
  | cons m rest =>
    simp only [List.isEmpty_cons, Bool.false_eq_true, if_false]
    exact calcOffsetsLoop_getD_succ c (m :: rest) 0 i h

lemma offAt_of_ge {msgs : List Msg} (c : HeightCache) {i : Nat}
    (h : msgs.length ≤ i) : offAt msgs c i = 0 := by
  unfold offAt
  exact List.getD_eq_default _ _ (by rw [messageOffsets_length]; exact h)

lemma offAt_nonneg {msgs : List Msg} {c : HeightCache} (hc : PosCache c)
    (i : Nat) : 0 ≤ offAt msgs c i := by
  by_cases hlen : msgs.length ≤ i
  · rw [offAt_of_ge c hlen]
  · push_neg at hlen
    induction i with
    | zero =>
      have hne : msgs ≠ [] := by
        intro h; rw [h] at hlen; simp at hlen
      rw [offAt_zero c hne]
    | succ j ih =>
      have hj : j < msgs.length := Nat.lt_of_succ_lt hlen
      have := ih hj
      rw [offAt_succ c hlen]
      have hpos := @heightAt_pos msgs c hc j
      unfold GAP
      omega

lemma offAt_mono {msgs : List Msg} {c : HeightCache} (hc : PosCache c)
    {j k : Nat} (hjk : j ≤ k) (hk : k < msgs.length) :
    offAt msgs c j ≤ offAt msgs c k := by
  induction k, hjk using Nat.le_induction with
  | base => exact le_refl _
  | succ k hjk ih =>
    have hk1 : k < msgs.length := Nat.lt_of_succ_lt hk
    have h1 := ih hk1
    rw [offAt_succ c hk]
    have hpos := @heightAt_pos msgs c hc k
    unfold GAP
    omega

lemma bottom_mono {msgs : List Msg} {c : HeightCache} (hc : PosCache c)
    {j k : Nat} (hjk : j ≤ k) (hk : k < msgs.length) :
    offAt msgs c j + heightAt msgs c j ≤ offAt msgs c k + heightAt msgs c k := by
  induction k, hjk using Nat.le_induction with
  | base => exact le_refl _
  | succ k hjk ih =>
    have hk1 : k < msgs.length := Nat.lt_of_succ_lt hk
    have h1 := ih hk1
    have h2 := @offAt_succ msgs c k hk
    have hpos := @heightAt_pos msgs c hc (k + 1)
    unfold GAP at h2
    omega

lemma totalHeight_eq {msgs : List Msg} (c : HeightCache) (hc : PosCache c)
    (hne : msgs ≠ []) :
    totalHeight msgs c =
      offAt msgs c (msgs.length - 1) + heightAt msgs c (msgs.length - 1) := by
  unfold totalHeight calculateOffsets
  cases msgs with
  | nil => exact absurd rfl hne
  | cons m rest =>
    simp only [List.isEmpty_cons, Bool.false_eq_true, if_false]
    have hsnd := calcOffsetsLoop_snd c (m :: rest) 0 (by simp)
    have hoff : offAt (m :: rest) c ((m :: rest).length - 1) =
        (calcOffsetsLoop c (m :: rest) 0).1.getD ((m :: rest).length - 1) 0 := by
      unfold offAt messageOffsets calculateOffsets
      simp
    have hnn : 0 ≤ offAt (m :: rest) c ((m :: rest).length - 1) :=
      offAt_nonneg hc _
    have hpos := @heightAt_pos (m :: rest) c hc ((m :: rest).length - 1)
    unfold heightAt at hsnd hpos ⊢
    rw [hoff]
    unfold GAP at hsnd ⊢
    omega

/-- A three-message demo sequence used by the concrete scenarios. -/
def demoMsgs : List Msg :=
  [⟨"m1", "user", "hello"⟩, ⟨"m2", "assistant", "hi"⟩, ⟨"m3", "user", "ok"⟩]

/-- The demo height cache after measuring the second message at 40px. -/
def demoCache : HeightCache := [("m2", 40)]

/-- C1: for every message sequence with a (positive-entry) height cache,
after `calculateOffsets` runs: a non-empty sequence has `offset[0] = 0`
and `offset[i+1] - offset[i] = height(i) + GAP` for every `i`; the
returned `totalHeight` equals `offset[last] + height(last)`;
`totalHeight` is `0` for the empty sequence; and `totalHeight` is never
negative. -/
theorem C1_calculateOffsets (msgs : List Msg) (c : HeightCache)
    (hc : PosCache c) :
    (msgs ≠ [] → offAt msgs c 0 = 0) ∧
    (∀ i : Nat, i + 1 < msgs.length →
      offAt msgs c (i + 1) - offAt msgs c i = heightAt msgs c i + GAP) ∧
    (msgs ≠ [] → totalHeight msgs c =
      offAt msgs c (msgs.length - 1) + heightAt msgs c (msgs.length - 1)) ∧
    (msgs = [] → totalHeight msgs c = 0) ∧
    0 ≤ totalHeight msgs c := by
  refine ⟨fun hne => offAt_zero c hne, fun i hi => ?_,
    fun hne => totalHeight_eq c hc hne, fun hemp => ?_, ?_⟩
  · rw [offAt_succ c hi]; ring
  · subst hemp; rfl
  · unfold totalHeight calculateOffsets
    cases msgs with
    | nil => simp
    | cons m rest => simp

/-- Witness for C1 at the concrete three-message demo sequence. -/
theorem C1_calculateOffsets_witness :
    totalHeight demoMsgs demoCache =
      offAt demoMsgs demoCache (demoMsgs.length - 1) +
        heightAt demoMsgs demoCache (demoMsgs.length - 1) :=
  (C1_calculateOffsets demoMsgs demoCache
    (by unfold PosCache; decide)).2.2.1 (by decide)

/-- C4 counterexample: with the second message measured at 40px the
recomputed offsets are not `[0, 56, 152]` as the claim states. -/
theorem C4_counterexample :
    ¬ (messageOffsets demoMsgs demoCache = [0, 56, 152] ∧
       totalHeight demoMsgs demoCache = 232) := by decide

/-- C4 (amended): a three-message sequence with no cached heights yields
offsets `[0, 96, 192]` and total height 272; after caching 40px for the
second message, recomputing yields offsets `[0, 96, 152]` and total
height 232. -/
theorem C4_offsets_scenario :
    messageOffsets demoMsgs [] = [0, 96, 192] ∧
    totalHeight demoMsgs [] = 272 ∧
    messageOffsets demoMsgs demoCache = [0, 96, 152] ∧
    totalHeight demoMsgs demoCache = 232 := by decide

/-- First binary-search loop of `getVisibleRange`: advances `lo` past
every index whose bottom edge lies above the band start, returning the
final `lo`. -/
def vrStartLoop (msgs : List Msg) (c : HeightCache) (offs : List Int)
    (viewStart : Int) (lo hi : Int) : Int :=
  if h : lo ≤ hi then
    if offs.getD ((lo + hi) / 2).toNat 0 +
        heightAt msgs c ((lo + hi) / 2).toNat < viewStart then
      vrStartLoop msgs c offs viewStart ((lo + hi) / 2 + 1) hi
    else
      vrStartLoop msgs c offs viewStart lo ((lo + hi) / 2 - 1)
  else lo
termination_by (hi + 1 - lo).toNat
decreasing_by all_goals omega

/-- Second binary-search loop of `getVisibleRange`: advances `hi` below
every index whose top edge lies past the band end, returning the final
`hi`. -/
def vrEndLoop (offs : List Int) (viewEnd : Int) (lo hi : Int) : Int :=
  if h : lo ≤ hi then
    if offs.getD ((lo + hi) / 2).toNat 0 > viewEnd then
      vrEndLoop offs viewEnd lo ((lo + hi) / 2 - 1)
    else
      vrEndLoop offs viewEnd ((lo + hi) / 2 + 1) hi
  else hi
termination_by (hi + 1 - lo).toNat
decreasing_by all_goals omega

/-- Function `getVisibleRange` from app.js, reading the supplied offset table. -/
def getVisibleRange (msgs : List Msg) (c : HeightCache) (offs : List Int)
    (scrollTop containerHeight : Int) : Int × Int :=
  if msgs.length = 0 then (0, 0)
  else
    let viewStart := max 0 (scrollTop - BUFFER_PX)
    let viewEnd := scrollTop + containerHeight + BUFFER_PX
    let lo := vrStartLoop msgs c offs viewStart 0 ((msgs.length : Int) - 1)
    let start := max 0 (lo - 1)
    let hi := vrEndLoop offs viewEnd start ((msgs.length : Int) - 1)
    (start, min (msgs.length : Int) (hi + 2))

lemma vrStartLoop_bounds (msgs : List Msg) (c : HeightCache)
    (offs : List Int) (viewStart : Int) :
    ∀ lo hi : Int, lo ≤ vrStartLoop msgs c offs viewStart lo hi ∧
      vrStartLoop msgs c offs viewStart lo hi ≤ max lo (hi + 1) := by
  intro lo hi
  induction lo, hi using vrStartLoop.induct msgs c offs viewStart with
  | case1 lo hi h hlt ih =>
    rw [vrStartLoop]
    simp only [h, dite_true]
    rw [if_pos hlt]
    omega
  | case2 lo hi h hlt ih =>
    rw [vrStartLoop]
    simp only [h, dite_true]
    rw [if_neg hlt]
    omega
  | case3 lo hi h =>
    rw [vrStartLoop]
    simp only [h, dite_false]
    omega

lemma vrEndLoop_bounds (offs : List Int) (viewEnd : Int) :
    ∀ lo hi : Int, min hi (lo - 1) ≤ vrEndLoop offs viewEnd lo hi ∧
      vrEndLoop offs viewEnd lo hi ≤ max hi (lo - 1) := by
  intro lo hi
  induction lo, hi using vrEndLoop.induct offs viewEnd with
  | case1 lo hi h hgt ih =>
    rw [vrEndLoop]
    simp only [h, dite_true]
    rw [if_pos hgt]
    omega
  | case2 lo hi h hgt ih =>
    rw [vrEndLoop]
    simp only [h, dite_true]
    rw [if_neg hgt]
    omega
  | case3 lo hi h =>
    rw [vrEndLoop]
    simp only [h, dite_false]
    omega

lemma vrStartLoop_correct (msgs : List Msg) (c : HeightCache)
    (offs : List Int) (viewStart : Int)
    (hdc : ∀ j k : Nat, j ≤ k → k < msgs.length →
      offs.getD k 0 + heightAt msgs c k < viewStart →
      offs.getD j 0 + heightAt msgs c j < viewStart) :
    ∀ lo hi : Int, 0 ≤ lo → hi ≤ (msgs.length : Int) - 1 →
      (∀ j : Nat, (j : Int) < lo →
        offs.getD j 0 + heightAt msgs c j < viewStart) →
      (∀ j : Nat, hi < (j : Int) → j < msgs.length →
        ¬ (offs.getD j 0 + heightAt msgs c j < viewStart)) →
      (∀ j : Nat, (j : Int) < vrStartLoop msgs c offs viewStart lo hi →
        offs.getD j 0 + heightAt msgs c j < viewStart) ∧
      (∀ j : Nat, vrStartLoop msgs c offs viewStart lo hi ≤ (j : Int) →
        j < msgs.length →
        ¬ (offs.getD j 0 + heightAt msgs c j < viewStart)) := by
  intro lo hi
  induction lo, hi using vrStartLoop.induct msgs c offs viewStart with
  | case1 lo hi h hlt ih =>
    intro hlo hhi hinv1 hinv2
    rw [vrStartLoop]
    simp only [h, dite_true]
    rw [if_pos hlt]
    have hmidlen : ((lo + hi) / 2).toNat < msgs.length := by omega
    refine ih (by omega) hhi ?_ hinv2
    intro j hj
    by_cases hjlo : (j : Int) < lo
    · exact hinv1 j hjlo
    · exact hdc j ((lo + hi) / 2).toNat (by omega) hmidlen hlt
  | case2 lo hi h hlt ih =>
    intro hlo hhi hinv1 hinv2
    rw [vrStartLoop]
    simp only [h, dite_true]
    rw [if_neg hlt]
    have hmidlen : ((lo + hi) / 2).toNat < msgs.length := by omega
    refine ih hlo (by omega) hinv1 ?_
    intro j hj hjlen hQ
    by_cases hjhi : hi < (j : Int)
    · exact hinv2 j hjhi hjlen hQ
    · exact hlt (hdc ((lo + hi) / 2).toNat j (by omega) hjlen hQ)
  | case3 lo hi h =>
    intro hlo hhi hinv1 hinv2
    rw [vrStartLoop]
    simp only [h, dite_false]
    exact ⟨hinv1, fun j hj hjlen => hinv2 j (by omega) hjlen⟩

lemma vrEndLoop_correct (offs : List Int) (viewEnd : Int) (len : Nat)
    (loInit : Int)
    (huc : ∀ j k : Nat, j ≤ k → k < len →
      offs.getD j 0 > viewEnd → offs.getD k 0 > viewEnd) :
    ∀ lo hi : Int, 0 ≤ lo → hi ≤ (len : Int) - 1 →
      (∀ j : Nat, (j : Int) < lo →
        ((j : Int) < loInit ∨ ¬ (offs.getD j 0 > viewEnd))) →
      (∀ j : Nat, hi < (j : Int) → j < len → offs.getD j 0 > viewEnd) →
      (∀ j : Nat, (j : Int) ≤ vrEndLoop offs viewEnd lo hi →
        ((j : Int) < loInit ∨ ¬ (offs.getD j 0 > viewEnd))) ∧
      (∀ j : Nat, vrEndLoop offs viewEnd lo hi < (j : Int) → j < len →
        offs.getD j 0 > viewEnd) := by
  intro lo hi
  induction lo, hi using vrEndLoop.induct offs viewEnd with
  | case1 lo hi h hgt ih =>
    intro hlo hhi hinv1 hinv2
    rw [vrEndLoop]
    simp only [h, dite_true]
    rw [if_pos hgt]
    have hmidlen : ((lo + hi) / 2).toNat < len := by omega
    refine ih hlo (by omega) hinv1 ?_
    intro j hj hjlen
    by_cases hjhi : hi < (j : Int)
    · exact hinv2 j hjhi hjlen
    · exact huc ((lo + hi) / 2).toNat j (by omega) hjlen hgt
  | case2 lo hi h hgt ih =>
    intro hlo hhi hinv1 hinv2
    rw [vrEndLoop]
    simp only [h, dite_true]
    rw [if_neg hgt]
    have hmidlen : ((lo + hi) / 2).toNat < len := by omega
    refine ih (by omega) hhi ?_ hinv2
    intro j hj
    by_cases hjlo : (j : Int) < lo
    · exact hinv1 j hjlo
    · exact Or.inr (fun hR => hgt (huc j ((lo + hi) / 2).toNat (by omega)
        hmidlen hR))
  | case3 lo hi h =>
    intro hlo hhi hinv1 hinv2
    rw [vrEndLoop]
    simp only [h, dite_false]
    exact ⟨fun j hj => hinv1 j (by omega), hinv2⟩

lemma offAt_def (msgs : List Msg) (c : HeightCache) (i : Nat) :
    (messageOffsets msgs c).getD i 0 = offAt msgs c i := rfl

/-- Combined description of the two binary searches inside
`getVisibleRange` run over the recomputed offset table. -/
lemma visibleLoops_spec (msgs : List Msg) (c : HeightCache)
    (scrollTop ch : Int) (hc : PosCache c) (hlen : ¬ msgs.length = 0) :
    ∃ L1 H2 : Int,
      getVisibleRange msgs c (messageOffsets msgs c) scrollTop ch =
        (max 0 (L1 - 1), min (msgs.length : Int) (H2 + 2)) ∧
      0 ≤ L1 ∧ L1 ≤ (msgs.length : Int) ∧
      max 0 (L1 - 1) - 1 ≤ H2 ∧ H2 ≤ (msgs.length : Int) - 1 ∧
      (∀ j : Nat, (j : Int) < L1 →
        offAt msgs c j + heightAt msgs c j < max 0 (scrollTop - BUFFER_PX)) ∧
      (∀ j : Nat, L1 ≤ (j : Int) → j < msgs.length →
        max 0 (scrollTop - BUFFER_PX) ≤ offAt msgs c j + heightAt msgs c j) ∧
      (∀ j : Nat, (j : Int) ≤ H2 →
        ((j : Int) < max 0 (L1 - 1) ∨
          offAt msgs c j ≤ scrollTop + ch + BUFFER_PX)) ∧
      (∀ j : Nat, H2 < (j : Int) → j < msgs.length →
        scrollTop + ch + BUFFER_PX < offAt msgs c j) := by
  have hdc : ∀ j k : Nat, j ≤ k → k < msgs.length →
      (messageOffsets msgs c).getD k 0 + heightAt msgs c k <
        max 0 (scrollTop - BUFFER_PX) →
      (messageOffsets msgs c).getD j 0 + heightAt msgs c j <
        max 0 (scrollTop - BUFFER_PX) := by
    intro j k hjk hk hQ
    have hm := bottom_mono hc hjk hk
    rw [offAt_def] at hQ ⊢
    omega
  have hSA := vrStartLoop_correct msgs c (messageOffsets msgs c)
    (max 0 (scrollTop - BUFFER_PX)) hdc 0 ((msgs.length : Int) - 1)
    (le_refl 0) (le_refl _)
    (fun j hj => absurd hj (by omega))
    (fun j hj hjlen => absurd hjlen (by omega))
  have hSB := vrStartLoop_bounds msgs c (messageOffsets msgs c)
    (max 0 (scrollTop - BUFFER_PX)) 0 ((msgs.length : Int) - 1)
  have huc : ∀ j k : Nat, j ≤ k → k < msgs.length →
      (messageOffsets msgs c).getD j 0 > scrollTop + ch + BUFFER_PX →
      (messageOffsets msgs c).getD k 0 > scrollTop + ch + BUFFER_PX := by
    intro j k hjk hk hR
    have hm := offAt_mono hc hjk hk
    rw [offAt_def] at hR ⊢
    omega
  have hEA := vrEndLoop_correct (messageOffsets msgs c)
    (scrollTop + ch + BUFFER_PX) msgs.length
    (max 0 (vrStartLoop msgs c (messageOffsets msgs c)
      (max 0 (scrollTop - BUFFER_PX)) 0 ((msgs.length : Int) - 1) - 1))
    huc
    (max 0 (vrStartLoop msgs c (messageOffsets msgs c)
      (max 0 (scrollTop - BUFFER_PX)) 0 ((msgs.length : Int) - 1) - 1))
    ((msgs.length : Int) - 1)
    (by omega) (le_refl _)
    (fun j hj => Or.inl hj)
    (fun j hj hjlen => absurd hjlen (by omega))
  have hEB := vrEndLoop_bounds (messageOffsets msgs c)
    (scrollTop + ch + BUFFER_PX)
    (max 0 (vrStartLoop msgs c (messageOffsets msgs c)
      (max 0 (scrollTop - BUFFER_PX)) 0 ((msgs.length : Int) - 1) - 1))
    ((msgs.length : Int) - 1)
  refine ⟨vrStartLoop msgs c (messageOffsets msgs c)
      (max 0 (scrollTop - BUFFER_PX)) 0 ((msgs.length : Int) - 1),
    vrEndLoop (messageOffsets msgs c) (scrollTop + ch + BUFFER_PX)
      (max 0 (vrStartLoop msgs c (messageOffsets msgs c)
        (max 0 (scrollTop - BUFFER_PX)) 0 ((msgs.length : Int) - 1) - 1))
      ((msgs.length : Int) - 1), ?_, ?_, ?_, ?_, ?_, ?_, ?_, ?_, ?_⟩
  · unfold getVisibleRange
    rw [if_neg hlen]
  · omega
  · omega
  · omega
  · omega
  · intro j hj
    rw [← offAt_def]
    exact hSA.1 j hj
  · intro j hj hjlen
    rw [← offAt_def]
    exact not_lt.mp (hSA.2 j hj hjlen)
  · intro j hj
    rcases hEA.1 j hj with h | h
    · exact Or.inl h
    · rw [← offAt_def]
      exact Or.inr (not_lt.mp h)
  · intro j hj hjlen
    rw [← offAt_def]
    exact hEA.2 j hj hjlen

/-- C8: for every sequence, cache and arbitrary (even negative) scroll
inputs, `getVisibleRange` returns a well-formed half-open range:
`0 ≤ start ≤ end ≤ length`, and for a non-empty sequence
`start < end`. -/
theorem C8_getVisibleRange_wellFormed (msgs : List Msg) (c : HeightCache)
    (scrollTop containerHeight : Int) :
    0 ≤ (getVisibleRange msgs c (messageOffsets msgs c)
          scrollTop containerHeight).1 ∧
    (getVisibleRange msgs c (messageOffsets msgs c)
        scrollTop containerHeight).1 ≤
      (getVisibleRange msgs c (messageOffsets msgs c)
          scrollTop containerHeight).2 ∧
    (getVisibleRange msgs c (messageOffsets msgs c)
        scrollTop containerHeight).2 ≤ (msgs.length : Int) ∧
    (msgs ≠ [] →
      (getVisibleRange msgs c (messageOffsets msgs c)
          scrollTop containerHeight).1 <
        (getVisibleRange msgs c (messageOffsets msgs c)
            scrollTop containerHeight).2) := by
  unfold getVisibleRange
  by_cases hlen : msgs.length = 0
  · simp only [hlen, if_true]
    refine ⟨le_refl 0, le_refl 0, by simp [hlen], fun hne => ?_⟩
    exact absurd (List.length_eq_zero.mp hlen) hne
  · simp only [hlen, if_false]
    have hlen1 : 1 ≤ msgs.length := Nat.one_le_iff_ne_zero.mpr hlen
    have h1 := vrStartLoop_bounds msgs c (messageOffsets msgs c)
      (max 0 (scrollTop - BUFFER_PX)) 0 ((msgs.length : Int) - 1)
    have h2 := vrEndLoop_bounds (messageOffsets msgs c)
      (scrollTop + containerHeight + BUFFER_PX)
      (max 0 (vrStartLoop msgs c (messageOffsets msgs c)
        (max 0 (scrollTop - BUFFER_PX)) 0 ((msgs.length : Int) - 1) - 1))
      ((msgs.length : Int) - 1)
    refine ⟨?_, ?_, ?_, fun hne => ?_⟩ <;> omega

/-- C2: with a recomputed offset table and non-negative scroll inputs,
the window returned by `getVisibleRange` contains every index whose
pixel band `[offset[i], offset[i] + height(i)]` intersects the viewport
band `[scrollTop, scrollTop + viewportHeight]`. -/
theorem C2_getVisibleRange_covers (msgs : List Msg) (c : HeightCache)
    (scrollTop viewportHeight : Int) (i : Nat) (hc : PosCache c)
    (hst : 0 ≤ scrollTop) (hvh : 0 ≤ viewportHeight)
    (hilen : i < msgs.length)
    (hband1 : offAt msgs c i ≤ scrollTop + viewportHeight)
    (hband2 : scrollTop ≤ offAt msgs c i + heightAt msgs c i) :
    (getVisibleRange msgs c (messageOffsets msgs c)
        scrollTop viewportHeight).1 ≤ (i : Int) ∧
    (i : Int) < (getVisibleRange msgs c (messageOffsets msgs c)
        scrollTop viewportHeight).2 := by
  have hlen : ¬ msgs.length = 0 := by omega
  obtain ⟨L1, H2, heq, hL1a, hL1b, hH2a, hH2b, hA1, hA2, hB1, hB2⟩ :=
    visibleLoops_spec msgs c scrollTop viewportHeight hc hlen
  have hBP : BUFFER_PX = 400 := rfl
  rw [heq]
  refine ⟨?_, ?_⟩
  · show max 0 (L1 - 1) ≤ (i : Int)
    by_cases hiL : (i : Int) < L1
    · have := hA1 i hiL
      omega
    · omega
  · show (i : Int) < min (msgs.length : Int) (H2 + 2)
    by_cases hiH : H2 < (i : Int)
    · have := hB2 i hiH hilen
      omega
    · omega

/-- Witness for C2: message 1 of the demo sequence intersects the
viewport `[0, 200]` and indeed lies inside the returned window. -/
theorem C2_getVisibleRange_covers_witness :
    (getVisibleRange demoMsgs demoCache
        (messageOffsets demoMsgs demoCache) 0 200).1 ≤ (1 : Int) ∧
    (1 : Int) < (getVisibleRange demoMsgs demoCache
        (messageOffsets demoMsgs demoCache) 0 200).2 :=
  C2_getVisibleRange_covers demoMsgs demoCache 0 200 1
    (by unfold PosCache; decide) (by decide) (by decide) (by decide)
    (by decide) (by decide)

/-- C3: for a non-empty sequence with a recomputed offset table,
`getVisibleRange` returns `start` = (the first index whose bottom edge
reaches the band start) minus one clamped to 0, and `end` = (the last
index whose top edge is within the band end) plus 2 clamped to the
length; for the empty sequence it returns `(0, 0)`. -/
theorem C3_getVisibleRange_boundaries (msgs : List Msg) (c : HeightCache)
    (scrollTop viewportHeight : Int) (hc : PosCache c)
    (hst : 0 ≤ scrollTop) (hvh : 0 ≤ viewportHeight) :
    (msgs = [] → getVisibleRange msgs c (messageOffsets msgs c)
        scrollTop viewportHeight = (0, 0)) ∧
    (∀ F L : Nat, F < msgs.length → L < msgs.length →
      scrollTop - BUFFER_PX ≤ offAt msgs c F + heightAt msgs c F →
      (∀ j : Nat, j < F →
        offAt msgs c j + heightAt msgs c j < scrollTop - BUFFER_PX) →
      offAt msgs c L ≤ scrollTop + viewportHeight + BUFFER_PX →
      (∀ j : Nat, L < j → j < msgs.length →
        scrollTop + viewportHeight + BUFFER_PX < offAt msgs c j) →
      getVisibleRange msgs c (messageOffsets msgs c)
          scrollTop viewportHeight =
        (max 0 ((F : Int) - 1), min (msgs.length : Int) ((L : Int) + 2))) := by
  constructor
  · intro hemp
    subst hemp
    rfl
  · intro F L hF hL hF2 hF3 hL2 hL3
    have hlen : ¬ msgs.length = 0 := by omega
    have hne : msgs ≠ [] := by
      intro h; rw [h] at hF; simp at hF
    obtain ⟨L1, H2, heq, hL1a, hL1b, hH2a, hH2b, hA1, hA2, hB1, hB2⟩ :=
      visibleLoops_spec msgs c scrollTop viewportHeight hc hlen
    have hBP : BUFFER_PX = 400 := rfl
    have hFnn : 0 ≤ offAt msgs c F := offAt_nonneg hc F
    have hFhp : 0 < heightAt msgs c F := heightAt_pos hc F
    -- the first loop lands exactly on F
    have hL1F : L1 = (F : Int) := by
      rcases lt_trichotomy L1 (F : Int) with hlt | hE | hgt
      · exfalso
        have hjF : L1.toNat < F := by omega
        have hcast : (L1.toNat : Int) = L1 := by omega
        have h1 := hF3 L1.toNat hjF
        have h2 := hA2 L1.toNat (by omega) (by omega)
        omega
      · exact hE
      · exfalso
        have := hA1 F hgt
        omega
    -- the second loop lands exactly on L
    have hH2L : H2 = (L : Int) := by
      rcases lt_trichotomy H2 (L : Int) with hlt | hE | hgt
      · exfalso
        have := hB2 L hlt hL
        omega
      · exact hE
      · exfalso
        have hH2nn : 0 ≤ H2 := by omega
        have hH2len : H2.toNat < msgs.length := by omega
        have hcast : (H2.toNat : Int) = H2 := by omega
        rcases hB1 H2.toNat (by omega) with hsmall | hok
        · -- would force H2 below the start bound; impossible because
          -- the start index itself has top edge within the band end
          rw [hL1F] at hsmall hH2a
          by_cases hF0 : F = 0
          · rw [hF0] at hsmall
            omega
          · have hFm1 : (F - 1 : Nat) < F := by omega
            have hstart : ((F - 1 : Nat) : Int) = (F : Int) - 1 := by omega
            have hbtm := hA1 (F - 1) (by rw [hL1F]; omega)
            have hoffb : offAt msgs c (F - 1) ≤
                offAt msgs c (F - 1) + heightAt msgs c (F - 1) := by
              have := @heightAt_pos msgs c hc (F - 1)
              omega
            have hRstart := hL3 (F - 1) (by omega) (by omega)
            omega
        · have := hL3 H2.toNat (by omega) hH2len
          omega
    rw [heq, hL1F, hH2L]

/-- Witness for C3 at the demo sequence: the first bottom edge past
`-400` is index 0, the last top edge within `600` is index 2, and the
resolved window is `(0, 3)`. -/
theorem C3_getVisibleRange_boundaries_witness :
    getVisibleRange demoMsgs [] (messageOffsets demoMsgs []) 0 200 =
      (0, 3) := by
  have h := (C3_getVisibleRange_boundaries demoMsgs [] 0 200
    (by unfold PosCache; decide) (by decide) (by decide)).2 0 2
    (by decide) (by decide)
    (by decide) (fun j h1 => absurd h1 (by omega))
    (by decide)
    (fun j h1 h2 => by
      have h3 : demoMsgs.length = 3 := rfl
      omega)
  rw [h]
  decide

/-- Witness for C8 at the demo sequence and a concrete scroll state. -/
theorem C8_getVisibleRange_wellFormed_witness :
    (getVisibleRange demoMsgs demoCache
        (messageOffsets demoMsgs demoCache) 0 200).1 <
      (getVisibleRange demoMsgs demoCache
          (messageOffsets demoMsgs demoCache) 0 200).2 :=
  (C8_getVisibleRange_wellFormed demoMsgs demoCache 0 200).2.2.2 (by decide)

/-- Function `selectMessage` from app.js: clamps the index, records the
selection, and scrolls only when the target band is not fully inside
the current viewport.  Returns the new `selectedMessageIndex` and the
new `content.scrollTop`. -/
def selectMessage (msgs : List Msg) (c : HeightCache) (offs : List Int)
    (scrollTop viewportHeight : Int)
    (selectedMessageIndex index : Int) : Int × Int :=
  if msgs.length = 0 then (selectedMessageIndex, scrollTop)
  else
    if scrollTop ≤
        offs.getD (max 0 (min index ((msgs.length : Int) - 1))).toNat 0 ∧
        offs.getD (max 0 (min index ((msgs.length : Int) - 1))).toNat 0 +
          effHeight c
            (msgs.getD (max 0 (min index ((msgs.length : Int) - 1))).toNat
              default).msg_id ≤ scrollTop + viewportHeight then
      (max 0 (min index ((msgs.length : Int) - 1)), scrollTop)
    else
      (max 0 (min index ((msgs.length : Int) - 1)),
        max 0
          (offs.getD (max 0 (min index ((msgs.length : Int) - 1))).toNat 0 -
            100))

lemma selectMessage_fst (msgs : List Msg) (c : HeightCache)
    (offs : List Int) (scrollTop viewportHeight sel index : Int)
    (hlen : ¬ msgs.length = 0) :
    (selectMessage msgs c offs scrollTop viewportHeight sel index).1 =
      max 0 (min index ((msgs.length : Int) - 1)) := by
  unfold selectMessage
  rw [if_neg hlen]
  split <;> rfl

/-- C5: on a non-empty sequence `selectMessage` first clamps the index
to `[0, len-1]`; if the known band of the clamped target lies fully inside
the current viewport the scroll position is left unchanged, otherwise
it scrolls to `offset[index] - 100` clamped to `≥ 0`. -/
theorem C5_selectMessage (msgs : List Msg) (c : HeightCache)
    (scrollTop viewportHeight sel index : Int) (J : Nat)
    (hne : msgs ≠ [])
    (hJ : (J : Int) = max 0 (min index ((msgs.length : Int) - 1))) :
    (selectMessage msgs c (messageOffsets msgs c) scrollTop
        viewportHeight sel index).1 = (J : Int) ∧
    (scrollTop ≤ offAt msgs c J ∧
        offAt msgs c J + heightAt msgs c J ≤ scrollTop + viewportHeight →
      (selectMessage msgs c (messageOffsets msgs c) scrollTop
          viewportHeight sel index).2 = scrollTop) ∧
    (¬ (scrollTop ≤ offAt msgs c J ∧
        offAt msgs c J + heightAt msgs c J ≤ scrollTop + viewportHeight) →
      (selectMessage msgs c (messageOffsets msgs c) scrollTop
          viewportHeight sel index).2 = max 0 (offAt msgs c J - 100)) := by
  have hlen : ¬ msgs.length = 0 := fun h => hne (List.length_eq_zero.mp h)
  have hJt : (max 0 (min index ((msgs.length : Int) - 1))).toNat = J := by
    omega
  unfold selectMessage
  rw [if_neg hlen, hJt]
  refine ⟨?_, fun hvis => ?_, fun hvis => ?_⟩
  · rw [← hJ]
    split <;> rfl
  · rw [show (messageOffsets msgs c).getD J 0 = offAt msgs c J from rfl,
      show effHeight c (msgs.getD J default).msg_id = heightAt msgs c J
        from rfl, if_pos hvis]
  · rw [show (messageOffsets msgs c).getD J 0 = offAt msgs c J from rfl,
      show effHeight c (msgs.getD J default).msg_id = heightAt msgs c J
        from rfl, if_neg hvis]

/-- Witness for C5: selecting message 1 of the demo sequence, whose
band `[96, 136]` lies inside the viewport `[0, 300]`, keeps the scroll
position. -/
theorem C5_selectMessage_witness :
    (selectMessage demoMsgs demoCache (messageOffsets demoMsgs demoCache)
        0 300 (-1) 1).2 = 0 :=
  (C5_selectMessage demoMsgs demoCache 0 300 (-1) 1 1 (by decide)
    (by decide)).2.1 (by decide)

/-- Value of `start` after the bounds clamp in `renderVisibleMessages`. -/
def clampStart (msgs : List Msg) (range : Int × Int) : Int :=
  max 0 (min range.1 (msgs.length : Int))

/-- Value of `end` after the bounds clamp in `renderVisibleMessages`. -/
def clampEnd (msgs : List Msg) (range : Int × Int) : Int :=
  max (clampStart msgs range) (min range.2 (msgs.length : Int))

/-- The messages materialized by `renderVisibleMessages`: indices
`[start, end)` of the sequence after clamping. -/
def renderedSlice (msgs : List Msg) (range : Int × Int) : List Msg :=
  (msgs.drop (clampStart msgs range).toNat).take
    ((clampEnd msgs range - clampStart msgs range).toNat)

/-- The measurement loop at the end of `renderVisibleMessages`: walks
the materialized messages in order and, for each measured height that
is positive and differs from the cached value, writes it to the cache
and raises the heights-changed flag. -/
def renderMeasure (measure : String → Int) :
    List Msg → HeightCache → Bool → HeightCache × Bool
  | [], c, flag => (c, flag)
  | m :: rest, c, flag =>
    if 0 < measure m.msg_id ∧
        HeightCache.get c m.msg_id ≠ some (measure m.msg_id) then
      renderMeasure measure rest (c.set m.msg_id (measure m.msg_id)) true
    else
      renderMeasure measure rest c flag

/-- Function `renderVisibleMessages` from app.js, restricted to its engine-state
effects: the range is clamped to the sequence bounds, the messages in
the clamped range are materialized and measured, and the updated height
cache is returned together with the heights-changed flag (which is
exactly the condition under which `scheduleHeightRecalc` is invoked).
HTML and spacer construction touch no engine state and are not
modelled. -/
def renderVisibleMessages (measure : String → Int) (msgs : List Msg)
    (c : HeightCache) (range : Int × Int) : HeightCache × Bool :=
  if clampStart msgs range ≥ clampEnd msgs range ∨ msgs.length = 0 then
    (c, false)
  else
    renderMeasure measure (renderedSlice msgs range) c false

lemma renderMeasure_unchanged (measure : String → Int) :
    ∀ (ms : List Msg) (c : HeightCache) (flag : Bool),
      (∀ m ∈ ms, HeightCache.get c m.msg_id = some (measure m.msg_id)) →
      renderMeasure measure ms c flag = (c, flag) := by
  intro ms
  induction ms with
  | nil => intro c flag h; rfl
  | cons m rest ih =>
    intro c flag h
    unfold renderMeasure
    rw [if_neg (fun hcond => hcond.2 (h m (List.mem_cons_self m rest)))]
    exact ih c flag (fun m2 hm2 => h m2 (List.mem_cons_of_mem m hm2))

/-- C6: rendering is idempotent for an unchanged range.  If every
message in the clamped range has a cached height equal to its measured
height, re-running `renderVisibleMessages` leaves the height cache
unchanged and does not raise the heights-changed flag (so no
recalculation is scheduled). -/
theorem C6_render_idempotent (measure : String → Int) (msgs : List Msg)
    (c : HeightCache) (range : Int × Int)
    (h : ∀ m ∈ renderedSlice msgs range,
      HeightCache.get c m.msg_id = some (measure m.msg_id)) :
    renderVisibleMessages measure msgs c range = (c, false) := by
  unfold renderVisibleMessages
  split
  · rfl
  · exact renderMeasure_unchanged measure (renderedSlice msgs range) c
      false h

/-- Witness for C6: re-rendering the demo sequence when all three
heights are cached at their measured values changes nothing. -/
theorem C6_render_idempotent_witness :
    renderVisibleMessages (fun _ => (40 : Int)) demoMsgs
        [("m1", 40), ("m2", 40), ("m3", 40)] (0, 3) =
      ([("m1", 40), ("m2", 40), ("m3", 40)], false) :=
  C6_render_idempotent (fun _ => (40 : Int)) demoMsgs
    [("m1", 40), ("m2", 40), ("m3", 40)] (0, 3) (by decide)

/-- Function `handleMinimapClick` from app.js, with the pixel arithmetic taken
over exact rationals: maps the vertical click position `y` inside the
minimap to the scroll offset passed to `content.scrollTo`. -/
def handleMinimapClick (minimapHeight total viewportHeight y : ℚ) : ℚ :=
  max 0 (y / (minimapHeight / max total 1) - viewportHeight / 2)

/-- C7: a minimap click at vertical position `y`, with
`scale = minimapHeight / max(totalHeight, 1)`, scrolls to exactly
`y / scale - viewportHeight / 2` clamped to `≥ 0`. -/
theorem C7_minimapClick (minimapHeight total viewportHeight y : ℚ) :
    0 ≤ handleMinimapClick minimapHeight total viewportHeight y ∧
    (0 ≤ y / (minimapHeight / max total 1) - viewportHeight / 2 →
      handleMinimapClick minimapHeight total viewportHeight y =
        y / (minimapHeight / max total 1) - viewportHeight / 2) ∧
    (y / (minimapHeight / max total 1) - viewportHeight / 2 < 0 →
      handleMinimapClick minimapHeight total viewportHeight y = 0) :=
  ⟨le_max_left 0 _, fun h => max_eq_right h,
    fun h => max_eq_left (le_of_lt h)⟩

/-- Witness for C7: a minimap 100px tall over 1000px of content maps a
click at 50px to scroll offset 400 for a 200px viewport. -/
theorem C7_minimapClick_witness :
    handleMinimapClick 100 1000 200 50 = 400 := by
  have h := (C7_minimapClick 100 1000 200 50).2.1 (by norm_num)
  rw [h]
  norm_num

/-- The re-measurement pass inside `toggleThinking`: every rendered
message whose measured height is positive is stored back into the
cache. -/
def toggleThinkingRemeasure (measure : String → Int) :
    List String → HeightCache → HeightCache
  | [], c => c
  | i :: rest, c =>
    if 0 < measure i then
      toggleThinkingRemeasure measure rest (c.set i (measure i))
    else
      toggleThinkingRemeasure measure rest c

/-- Effect of `toggleThinking` on the height cache: the cache is cleared
wholesale, then the currently rendered messages are re-measured.  The
CSS class toggle and the deferred offset/minimap refresh touch no cache
state and are not modelled. -/
def toggleThinking (measure : String → Int) (renderedIds : List String)
    (_c : HeightCache) : HeightCache :=
  toggleThinkingRemeasure measure renderedIds []

/-- Effect of `renderSession` on the height cache:
`messageHeights.clear()`. -/
def renderSessionHeights (_c : HeightCache) : HeightCache := []

lemma PosCache_set {c : HeightCache} (hc : PosCache c) {id : String}
    {h : Int} (hpos : 0 < h) : PosCache (c.set id h) := by
  intro p hp
  rcases List.mem_cons.mp hp with hhead | htail
  · rw [hhead]; exact hpos
  · exact hc p (List.mem_of_mem_filter htail)

lemma renderMeasure_pos (measure : String → Int) :
    ∀ (ms : List Msg) (c : HeightCache) (flag : Bool), PosCache c →
      PosCache (renderMeasure measure ms c flag).1 := by
  intro ms
  induction ms with
  | nil => intro c flag hc; exact hc
  | cons m rest ih =>
    intro c flag hc
    unfold renderMeasure
    split
    · next hcond => exact ih _ true (PosCache_set hc hcond.1)
    · exact ih c flag hc

lemma toggleThinkingRemeasure_pos (measure : String → Int) :
    ∀ (ids : List String) (c : HeightCache), PosCache c →
      PosCache (toggleThinkingRemeasure measure ids c) := by
  intro ids
  induction ids with
  | nil => intro c hc; exact hc
  | cons i rest ih =>
    intro c hc
    unfold toggleThinkingRemeasure
    split
    · next hpos => exact ih _ (PosCache_set hc hpos)
    · exact ih c hc

/-- C9: every operation that writes the height cache stores only
strictly positive heights — measurement in `renderVisibleMessages`,
re-measurement in `toggleThinking` — while `renderSession` only clears
it; and every lookup of a missing id falls back to the estimate 80. -/
theorem C9_cache_positive (measure : String → Int) (msgs : List Msg)
    (c c2 c3 : HeightCache) (range : Int × Int) (ids : List String)
    (hc : PosCache c) :
    PosCache (renderVisibleMessages measure msgs c range).1 ∧
    PosCache (toggleThinking measure ids c2) ∧
    PosCache (renderSessionHeights c2) ∧
    (∀ i : String, HeightCache.get c3 i = none →
      effHeight c3 i = ESTIMATED_HEIGHT) := by
  refine ⟨?_, ?_, ?_, ?_⟩
  · unfold renderVisibleMessages
    split
    · exact hc
    · exact renderMeasure_pos measure _ c false hc
  · exact toggleThinkingRemeasure_pos measure ids []
      (fun p hp => absurd hp (List.not_mem_nil p))
  · exact fun p hp => absurd hp (List.not_mem_nil p)
  · intro i hnone
    unfold effHeight
    rw [hnone]

/-- Witness for C9: rendering the demo sequence with constant measured
height 40 over a positive cache keeps every entry positive. -/
theorem C9_cache_positive_witness :
    PosCache (renderVisibleMessages (fun _ => (40 : Int)) demoMsgs
      demoCache (0, 3)).1 :=
  (C9_cache_positive (fun _ => (40 : Int)) demoMsgs demoCache [] []
    (0, 3) [] (by unfold PosCache; decide)).1

/-- Function `navigateMessages` from app.js: with no selection it selects the
first or last message depending on the direction, otherwise it steps
the current selection; empty sequences are left untouched.  Returns the
new selection index and scroll position. -/
def navigateMessages (msgs : List Msg) (c : HeightCache)
    (offs : List Int) (scrollTop viewportHeight : Int)
    (selectedMessageIndex direction : Int) : Int × Int :=
  if msgs.length = 0 then (selectedMessageIndex, scrollTop)
  else if selectedMessageIndex = -1 then
    selectMessage msgs c offs scrollTop viewportHeight
      selectedMessageIndex
      (if direction > 0 then 0 else (msgs.length : Int) - 1)
  else
    selectMessage msgs c offs scrollTop viewportHeight
      selectedMessageIndex (selectedMessageIndex + direction)

/-- C10: with no selection (index -1) and a non-empty sequence,
`navigateMessages` selects index 0 going forward and the last index
going backward; on an empty sequence it changes nothing. -/
theorem C10_navigate_endpoints (msgs : List Msg) (c : HeightCache)
    (offs : List Int) (scrollTop viewportHeight direction : Int) :
    (msgs = [] → ∀ sel : Int,
      navigateMessages msgs c offs scrollTop viewportHeight sel
        direction = (sel, scrollTop)) ∧
    (msgs ≠ [] → 0 < direction →
      (navigateMessages msgs c offs scrollTop viewportHeight (-1)
        direction).1 = 0) ∧
    (msgs ≠ [] → direction < 0 →
      (navigateMessages msgs c offs scrollTop viewportHeight (-1)
        direction).1 = (msgs.length : Int) - 1) := by
  refine ⟨fun hemp sel => ?_, fun hne hdir => ?_, fun hne hdir => ?_⟩
  · unfold navigateMessages
    rw [if_pos (by rw [hemp]; rfl)]
  · have hlen : ¬ msgs.length = 0 := fun h =>
      hne (List.length_eq_zero.mp h)
    unfold navigateMessages
    rw [if_neg hlen, if_pos rfl, if_pos hdir,
      selectMessage_fst msgs c offs scrollTop viewportHeight (-1) 0 hlen]
    omega
  · have hlen : ¬ msgs.length = 0 := fun h =>
      hne (List.length_eq_zero.mp h)
    unfold navigateMessages
    rw [if_neg hlen, if_pos rfl, if_neg (by omega),
      selectMessage_fst msgs c offs scrollTop viewportHeight (-1)
        ((msgs.length : Int) - 1) hlen]
    omega

/-- Witness for C10: with nothing selected, navigating backward in the
demo sequence selects the last index. -/
theorem C10_navigate_endpoints_witness :
    (navigateMessages demoMsgs demoCache
        (messageOffsets demoMsgs demoCache) 0 300 (-1) (-1)).1 = 2 := by
  have h := (C10_navigate_endpoints demoMsgs demoCache
    (messageOffsets demoMsgs demoCache) 0 300 (-1)).2.2 (by decide)
    (by decide)
  rw [h]
  decide

end SessionViewer
